import Mathlib

/-!
Formal model of the pantry-helper backend (src/app/main.py,
src/app/services/recipe_recommender.py, src/app/schemas.py, src/app/models.py).

Quantities are modelled as exact rationals (the source uses Python floats);
names are Lean strings, with Python str.lower modelled on the ASCII letters
that appear in ingredient names.  Database rows are modelled as lists kept in
insertion order; SQLAlchemy first() is first-match lookup, bulk update/delete
by id act on every row with that id (ids are primary keys).
-/

/-- Python str.lower for ASCII: maps each uppercase letter to its lowercase
counterpart via an explicit table, leaving every other character unchanged. -/
def lowerPairs : List (Char × Char) :=
  ("ABCDEFGHIJKLMNOPQRSTUVWXYZ".data.zip "abcdefghijklmnopqrstuvwxyz".data)

/-- First-match association lookup over character pairs. -/
def lookupPair : List (Char × Char) → Char → Option Char
  | [], _ => none
  | p :: rest, c => if p.1 = c then some p.2 else lookupPair rest c

/-- Lowercase a single character (Python str.lower restricted to ASCII). -/
def lowerChar (c : Char) : Char :=
  (lookupPair lowerPairs c).getD c

/-- Python s.lower() : lowercases every character, nothing else
(no trimming).  This is the normalization the source applies at every
name-matching site that normalizes at all (main.py lines 113, 185, 229, 245). -/
def pyLower (s : String) : String :=
  ⟨s.data.map lowerChar⟩

/-- Characters Python str.strip() removes. -/
def isPySpace (c : Char) : Bool :=
  c = ' ' || c = '\t' || c = '\n' || c = '\r' || c = Char.ofNat 11 || c = Char.ofNat 12

/-- Python s.strip(): drop whitespace from both ends. -/
def pyStrip (s : String) : String :=
  ⟨((s.data.dropWhile isPySpace).reverse.dropWhile isPySpace).reverse⟩

/-- Python banker's rounding (round(x) with no digits argument): round half
to even, returning an integer. -/
def bankers (q : ℚ) : ℤ :=
  let f : ℤ := ⌊q⌋
  let r : ℚ := q - (f : ℚ)
  if r < 1/2 then f
  else if 1/2 < r then f + 1
  else if f % 2 = 0 then f else f + 1

/-- Python round(x, 2): round to 2 decimal places (half to even). -/
def pyRound2 (q : ℚ) : ℚ :=
  ((bankers (q * 100) : ℚ)) / 100

/-- ORM row of the ingredients table (models.Ingredient). -/
structure Ingredient where
  id : ℕ
  name : String
  quantity : ℚ
  unit : String
  category : String
  min_quantity : ℚ
deriving DecidableEq, Repr

/-- ORM row of the to_buy table (models.ToBuy); its id plays no role in the
modelled operations. -/
structure ToBuy where
  name : String
  quantity : ℚ
  unit : String
  category : String
  last_used : String
deriving DecidableEq, Repr

/-- Request body of POST /pantry/add/ (schemas.IngredientCreate): exactly the
four fields of IngredientBase; the schema has no min_quantity field. -/
structure IngredientCreate where
  name : String
  quantity : ℚ
  unit : String
  category : String
deriving DecidableEq, Repr

/-- A validated receipt item (name/quantity/unit/category all present). -/
structure ReceiptItemR where
  name : String
  quantity : ℚ
  unit : String
  category : String
deriving DecidableEq, Repr

/-- A recipe ingredient as it arrives from the model output in
GET /recipes/recommend: every field may be absent (dict.get defaults). -/
structure RecipeIng where
  name : Option String
  quantity : Option ℚ
  unit : Option String
deriving DecidableEq, Repr

/-- An entry of the reconciled ingredient list built at main.py lines 196-200. -/
structure OutIng where
  name : String
  quantity : ℚ
  unit : String
deriving DecidableEq, Repr

/-- A recipe ingredient in the POST /recipes/use/ body (all fields required:
the handler indexes item["name"], item["quantity"], item["unit"]). -/
structure UseItem where
  name : String
  quantity : ℚ
  unit : String
deriving DecidableEq, Repr

/-- The recipe in the POST /recipes/use/ body. -/
structure UseRecipe where
  name : String
  ingredients : List UseItem
deriving DecidableEq, Repr

/-- The database state: both tables in insertion order, plus the next free
ingredient id. -/
structure PantryState where
  pantry : List Ingredient
  toBuy : List ToBuy
  nextId : ℕ
deriving DecidableEq, Repr

/-- First row whose name equals n exactly (SQLAlchemy
query(...).filter(name == n).first(), a case-sensitive comparison). -/
def findName : List Ingredient → String → Option Ingredient
  | [], _ => none
  | i :: rest, n => if i.name = n then some i else findName rest n

/-- First to-buy row whose name equals n exactly. -/
def findToBuy : List ToBuy → String → Option ToBuy
  | [], _ => none
  | t :: rest, n => if t.name = n then some t else findToBuy rest n

/-- First row with the given id. -/
def findId : List Ingredient → ℕ → Option Ingredient
  | [], _ => none
  | i :: rest, x => if i.id = x then some i else findId rest x

/-- Last element of a list satisfying the keyed-dict lookup; helper for
snapLookup. -/
def findKey : List Ingredient → String → Option Ingredient
  | [], _ => none
  | i :: rest, k => if pyLower i.name = k then some i else findKey rest k

/-- Lookup in the dict {ing.name.lower(): ... for ing in ingredients}:
a comprehension in which a later row overwrites an earlier one with the same
lowered name, so lookup returns the last such row. -/
def snapLookup (snap : List Ingredient) (k : String) : Option Ingredient :=
  findKey snap.reverse k

/-- Mutate the first row with the given exact name (the ORM object returned
by first()). -/
def updateIngFirst : List Ingredient → String → (Ingredient → Ingredient) → List Ingredient
  | [], _, _ => []
  | i :: rest, n, f => if i.name = n then f i :: rest else i :: updateIngFirst rest n f

/-- Mutate the first to-buy row with the given exact name. -/
def updateToBuyFirst : List ToBuy → String → (ToBuy → ToBuy) → List ToBuy
  | [], _, _ => []
  | t :: rest, n, f => if t.name = n then f t :: rest else t :: updateToBuyFirst rest n f

/-- Bulk delete by primary key: query(Ingredient).filter(id == x).delete()
removes every row with that id. -/
def deleteId : List Ingredient → ℕ → List Ingredient
  | [], _ => []
  | i :: rest, x => if i.id = x then deleteId rest x else i :: deleteId rest x

/-- The scheduled update quantities aimed at a given id, in order. -/
def updsFor : List (ℕ × ℚ) → ℕ → List ℚ
  | [], _ => []
  | u :: rest, x => if u.1 = x then u.2 :: updsFor rest x else updsFor rest x

/-- Last element of a list, or the default: the quantity that survives a
sequence of overwrites. -/
def lastD (l : List ℚ) (d : ℚ) : ℚ :=
  l.foldl (fun _ a => a) d

/-- The 21 common pantry staples of main.py lines 104-109. -/
def commonIngredients : List String :=
  ["olive oil", "vegetable oil", "salt", "black pepper", "garlic", "onion",
   "sugar", "flour", "baking powder", "baking soda", "vanilla extract",
   "cinnamon", "paprika", "oregano", "basil", "thyme", "rosemary",
   "butter", "milk", "eggs", "water"]

/-- The per-recipe ingredient filter of GET /recipes/recommend
(main.py lines 180-202): skip entries with a missing or empty name, skip
staples, include pantry matches with quantity clamped to min(requested,
available) and unit defaulting to the pantry unit, drop everything else. -/
def reconcileIngredients (pantry : List Ingredient) : List RecipeIng → List OutIng
  | [] => []
  | r :: rest =>
    let item_name := pyLower (r.name.getD "")
    if item_name = "" then reconcileIngredients pantry rest
    else if item_name ∈ commonIngredients then reconcileIngredients pantry rest
    else
      match snapLookup pantry item_name with
      | some avail =>
        ⟨r.name.getD "", min (r.quantity.getD 0) avail.quantity, r.unit.getD avail.unit⟩
          :: reconcileIngredients pantry rest
      | none => reconcileIngredients pantry rest

/-- The main loop of POST /recipes/use/ (main.py lines 244-274): snap is the
pantry snapshot read once before the loop; pantry deletions happen inline,
updates and to-buy additions are accumulated.  Returns
(pantry after deletions, items_to_update, items_to_buy). -/
def processItems (snap : List Ingredient) (rname : String) :
    List UseItem → List Ingredient → List (ℕ × ℚ) → List ToBuy →
    List Ingredient × List (ℕ × ℚ) × List ToBuy
  | [], p, ups, tbs => (p, ups, tbs)
  | item :: rest, p, ups, tbs =>
    match snapLookup snap (pyLower item.name) with
    | none => processItems snap rname rest p ups tbs
    | some avail =>
      let remaining := avail.quantity - item.quantity
      if remaining ≤ 0 then
        processItems snap rname rest (deleteId p avail.id) ups
          (tbs ++ [⟨item.name, |remaining|, item.unit, avail.category, rname⟩])
      else
        processItems snap rname rest p (ups ++ [(avail.id, remaining)]) tbs

/-- The bulk-update phase of POST /recipes/use/ (main.py lines 277-280):
each scheduled (id, quantity) updates every row with that id; a row deleted
earlier is simply not matched (the update is a no-op). -/
def applyUpdates : List (ℕ × ℚ) → List Ingredient → List Ingredient
  | [], p => p
  | u :: rest, p =>
    applyUpdates rest (p.map fun i => if i.id = u.1 then { i with quantity := u.2 } else i)

/-- The to-buy merge of POST /recipes/use/ (main.py lines 283-295): the first
row with the exact same name gets quantity max(existing, new) and its
last_used overwritten; otherwise the item is inserted. -/
def mergeToBuy : List ToBuy → ToBuy → List ToBuy
  | [], item => [item]
  | t :: rest, item =>
    if t.name = item.name then
      { t with quantity := max t.quantity item.quantity, last_used := item.last_used } :: rest
    else t :: mergeToBuy rest item

/-- Fold the accumulated to-buy additions into the to_buy table in order. -/
def applyToBuys : List ToBuy → List ToBuy → List ToBuy
  | [], tbs => tbs
  | item :: rest, tbs => applyToBuys rest (mergeToBuy tbs item)

/-- All three phases of POST /recipes/use/, before reassembly. -/
def useRecipeParts (r : UseRecipe) (st : PantryState) :
    List Ingredient × List (ℕ × ℚ) × List ToBuy :=
  processItems st.pantry r.name r.ingredients st.pantry [] []

/-- POST /recipes/use/ (main.py lines 217-303): the full state transition. -/
def useRecipe (r : UseRecipe) (st : PantryState) : PantryState :=
  let parts := useRecipeParts r st
  { pantry := applyUpdates parts.2.1 parts.1
    toBuy := applyToBuys parts.2.2 st.toBuy
    nextId := st.nextId }

/-- One item of the POST /upload-receipt/ loop (main.py lines 53-75): merge
into the row with the exact same name by adding quantities, otherwise insert
a new row with min_quantity = round(quantity * 0.2, 2). -/
def receiptUpsertItem (item : ReceiptItemR) (st : PantryState) : PantryState :=
  match findName st.pantry item.name with
  | some _ =>
    let p2 := updateIngFirst st.pantry item.name
      (fun i => { i with quantity := i.quantity + item.quantity })
    { st with pantry := p2 }
  | none =>
    { st with
      pantry := st.pantry ++
        [⟨st.nextId, item.name, item.quantity, item.unit, item.category,
          pyRound2 (item.quantity * (2/10))⟩]
      nextId := st.nextId + 1 }

/-- POST /upload-receipt/ over a whole list of validated items. -/
def receiptUpsert (items : List ReceiptItemR) (st : PantryState) : PantryState :=
  items.foldl (fun s it => receiptUpsertItem it s) st

/-- POST /pantry/add/ (main.py lines 311-382).  The new-ingredient branch
evaluates ingredient.min_quantity (line 377), but schemas.IngredientCreate
has no min_quantity field, so that branch raises AttributeError; it is
modelled as Except.error (nothing is committed). -/
def addToPantry (inc : IngredientCreate) (st : PantryState) : Except Unit PantryState :=
  let rounded : ℤ := bankers inc.quantity
  match findName st.pantry inc.name with
  | some ex =>
    let newq : ℤ := bankers (ex.quantity + (rounded : ℚ))
    if (newq : ℚ) < 1/2 then
      let toBuyNew :=
        match findToBuy st.toBuy inc.name with
        | some _ =>
          updateToBuyFirst st.toBuy inc.name
            (fun t => { t with quantity := max t.quantity 1 })
        | none =>
          st.toBuy ++ [⟨inc.name, 1, inc.unit, inc.category, "Low quantity alert"⟩]
      Except.ok { st with pantry := deleteId st.pantry ex.id, toBuy := toBuyNew }
    else
      let p2 := updateIngFirst st.pantry inc.name (fun i => { i with quantity := (newq : ℚ) })
      Except.ok { st with pantry := p2 }
  | none =>
    if (rounded : ℚ) < 1/2 then
      Except.ok { st with
        toBuy := st.toBuy ++ [⟨inc.name, 1, inc.unit, inc.category, "Low quantity alert"⟩] }
    else
      Except.error ()

/-- The four intent labels (recipe_recommender.py line 11). -/
inductive UserIntent where
  | RECIPE_REQUEST
  | GENERAL_FOOD_QUESTION
  | GENERAL_CHAT
  | UNKNOWN_INTENT
deriving DecidableEq, Repr

/-- How get_recipe_recommendations routes each intent
(recipe_recommender.py lines 93-97). -/
inductive Route where
  | chat
  | recipeSearch
deriving DecidableEq, Repr

/-- _get_user_intent (recipe_recommender.py lines 28-66).  The external
classifier is an oracle: none models a raised exception, some resp its
response content.  The Bool records whether the external call was made. -/
def getUserIntent (prompt : String) (call : Option String) : UserIntent × Bool :=
  if prompt = "" ∨ pyStrip prompt = "" then (.GENERAL_CHAT, false)
  else
    match call with
    | none => (.UNKNOWN_INTENT, true)
    | some resp =>
      let content := pyStrip resp
      if content = "RECIPE_REQUEST" then (.RECIPE_REQUEST, true)
      else if content = "GENERAL_FOOD_QUESTION" then (.GENERAL_FOOD_QUESTION, true)
      else if content = "GENERAL_CHAT" then (.GENERAL_CHAT, true)
      else (.UNKNOWN_INTENT, true)

/-- Line 90 of recipe_recommender.py: the prompt actually classified is the
user prompt when it is truthy and non-blank, else the literal "Hello". -/
def currentPrompt : Option String → String
  | none => "Hello"
  | some p => if p ≠ "" ∧ pyStrip p ≠ "" then p else "Hello"

/-- Intent detection as performed by get_recipe_recommendations
(recipe_recommender.py lines 88-91). -/
def recommendIntent (up : Option String) (call : Option String) : UserIntent × Bool :=
  getUserIntent (currentPrompt up) call

/-- The routing decision of lines 93-97: chat for GENERAL_CHAT and
GENERAL_FOOD_QUESTION, recipe search for everything else (UNKNOWN_INTENT
included). -/
def routeForIntent : UserIntent → Route
  | .GENERAL_CHAT => .chat
  | .GENERAL_FOOD_QUESTION => .chat
  | .RECIPE_REQUEST => .recipeSearch
  | .UNKNOWN_INTENT => .recipeSearch

/-! ### Helper lemmas about the character table -/

theorem lookupPair_mem {l : List (Char × Char)} {a b : Char}
    (h : lookupPair l a = some b) : (a, b) ∈ l := by
  induction l with
  | nil => simp [lookupPair] at h
  | cons p rest ih =>
    simp only [lookupPair] at h
    by_cases hp : p.1 = a
    · simp only [if_pos hp] at h
      have hb : p.2 = b := Option.some.inj h
      have hpab : p = (a, b) := by
        rw [Prod.ext_iff]
        exact ⟨hp, hb⟩
      rw [← hpab]
      exact List.mem_cons_self p rest
    · simp only [if_neg hp] at h
      exact List.mem_cons_of_mem _ (ih h)

theorem lowerChar_idem (c : Char) : lowerChar (lowerChar c) = lowerChar c := by
  unfold lowerChar
  cases h : lookupPair lowerPairs c with
  | none => simp [h]
  | some b =>
    have hm : (c, b) ∈ lowerPairs := lookupPair_mem h
    have hnone : ∀ p ∈ lowerPairs, lookupPair lowerPairs p.2 = none := by decide
    have hb := hnone (c, b) hm
    simp [h, hb]

theorem map_lowerChar_idem (l : List Char) :
    (l.map lowerChar).map lowerChar = l.map lowerChar := by
  induction l with
  | nil => rfl
  | cons c t ih => simp [lowerChar_idem, ih]

/-! ### C9 -/

/-- C9 (corrected): the matching key built at main.py lines 113/185/229/245 is
name.lower() with no trimming, so whitespace variants of a name can produce
different keys; here " eggs" keeps its leading space. -/
theorem normalize_whitespace_variant_cex :
    pyLower (" eggs") = " eggs" ∧ pyLower (" eggs") ≠ pyLower ("eggs") := by
  constructor
  · decide
  · decide

/-- C9 (amended): the normalization is lower-casing only.  It is idempotent,
so case variants of a name always give the same key, and it preserves length
(it never trims), so surrounding-whitespace variants need not. -/
theorem normalize_lower_only :
    (∀ s : String, pyLower (pyLower s) = pyLower s)
    ∧ (∀ s : String, (pyLower s).length = s.length) := by
  constructor
  · intro s
    show String.mk ((s.data.map lowerChar).map lowerChar) = String.mk (s.data.map lowerChar)
    exact congrArg String.mk (map_lowerChar_idem s.data)
  · intro s
    show (s.data.map lowerChar).length = s.data.length
    exact List.length_map s.data lowerChar

/-! ### C7 -/

/-- C7 (corrected): the classifier strips the response before comparing, so a
whitespace-padded label string, although not itself one of the three valid
labels, does not resolve to UNKNOWN_INTENT. -/
theorem intent_padded_label_cex :
    (getUserIntent ("what should I cook") (some (" RECIPE_REQUEST "))).1 =
      UserIntent.RECIPE_REQUEST
    ∧ (" RECIPE_REQUEST " : String) ∉
        (["RECIPE_REQUEST", "GENERAL_FOOD_QUESTION", "GENERAL_CHAT"] : List String)
    ∧ UserIntent.RECIPE_REQUEST ≠ UserIntent.UNKNOWN_INTENT := by
  refine ⟨by decide, by decide, by decide⟩

/-- C7 (amended): for a non-blank prompt, every external response whose
stripped content is outside the three valid labels resolves to
UNKNOWN_INTENT, every failure of the external call resolves to
UNKNOWN_INTENT, and the caller routes UNKNOWN_INTENT to the recipe search
rather than failing. -/
theorem intent_unknown_fallback :
    (∀ p resp : String, pyStrip p ≠ "" →
      pyStrip resp ∉ (["RECIPE_REQUEST", "GENERAL_FOOD_QUESTION", "GENERAL_CHAT"] : List String) →
      (getUserIntent p (some resp)).1 = UserIntent.UNKNOWN_INTENT)
    ∧ (∀ p : String, pyStrip p ≠ "" →
      (getUserIntent p none).1 = UserIntent.UNKNOWN_INTENT)
    ∧ routeForIntent UserIntent.UNKNOWN_INTENT = Route.recipeSearch := by
  refine ⟨?_, ?_, rfl⟩
  · intro p resp hp hr
    have hp0 : ¬(p = "" ∨ pyStrip p = "") := by
      rintro (h | h)
      · apply hp
        rw [h]
        decide
      · exact hp h
    simp only [List.mem_cons, List.not_mem_nil, or_false, not_or] at hr
    obtain ⟨h1, h2, h3⟩ := hr
    simp [getUserIntent, hp0, h1, h2, h3]
  · intro p hp
    have hp0 : ¬(p = "" ∨ pyStrip p = "") := by
      rintro (h | h)
      · apply hp
        rw [h]
        decide
      · exact hp h
    simp [getUserIntent, hp0]

/-- Witness for C7's theorem at a concrete prompt and response. -/
theorem intent_unknown_fallback_witness :
    pyStrip ("tell me something") ≠ ""
    ∧ pyStrip ("banana")
        ∉ (["RECIPE_REQUEST", "GENERAL_FOOD_QUESTION", "GENERAL_CHAT"] : List String)
    ∧ (getUserIntent ("tell me something") (some ("banana"))).1 = UserIntent.UNKNOWN_INTENT
    ∧ (getUserIntent ("tell me something") none).1 = UserIntent.UNKNOWN_INTENT :=
  ⟨by decide, by decide,
    intent_unknown_fallback.1 _ _ (by decide) (by decide),
    intent_unknown_fallback.2.1 _ (by decide)⟩

/-! ### C8 -/

/-- C8 (corrected): a whitespace-only prompt does not short-circuit the
recommendation flow; get_recipe_recommendations replaces it with "Hello" and
calls the external classifier, whose answer decides the intent: here the
classifier answers RECIPE_REQUEST and the flow adopts it (the Bool records
that the external call was made). -/
theorem blank_prompt_calls_classifier_cex :
    recommendIntent (some ("   ")) (some ("RECIPE_REQUEST")) = (UserIntent.RECIPE_REQUEST, true)
    ∧ ((UserIntent.RECIPE_REQUEST, true) : UserIntent × Bool) ≠ (UserIntent.GENERAL_CHAT, false) := by
  refine ⟨by decide, by decide⟩

/-- C8 (amended): _get_user_intent taken alone does short-circuit a blank
prompt to GENERAL_CHAT without the external call, but the recommendation
flow first replaces a blank (or absent) prompt with the literal "Hello", so
intent detection always runs on "Hello" and does consult the external
classifier. -/
theorem blank_prompt_hello_flow :
    (∀ (p : String) (call : Option String), pyStrip p = "" →
      getUserIntent p call = (UserIntent.GENERAL_CHAT, false))
    ∧ (∀ (p : String) (call : Option String), pyStrip p = "" →
      recommendIntent (some p) call = getUserIntent ("Hello") call)
    ∧ (∀ call : Option String, recommendIntent none call = getUserIntent ("Hello") call)
    ∧ (∀ call : Option String, (getUserIntent ("Hello") call).2 = true) := by
  refine ⟨?_, ?_, fun _ => rfl, ?_⟩
  · intro p call hp
    simp [getUserIntent, hp]
  · intro p call hp
    have hc : currentPrompt (some p) = "Hello" := by
      simp [currentPrompt, hp]
    rw [recommendIntent, hc]
  · intro call
    have h0 : ¬(("Hello" : String) = "" ∨ pyStrip ("Hello") = "") := by decide
    cases call with
    | none =>
      simp only [getUserIntent, if_neg h0]
    | some resp =>
      simp only [getUserIntent, if_neg h0]
      split_ifs <;> rfl

/-- Witness for C8's theorem at a concrete blank prompt and response. -/
theorem blank_prompt_hello_flow_witness :
    pyStrip ("  ") = ""
    ∧ getUserIntent ("  ") (some ("GENERAL_CHAT")) = (UserIntent.GENERAL_CHAT, false)
    ∧ recommendIntent (some ("  ")) (some ("GENERAL_CHAT")) =
        getUserIntent ("Hello") (some ("GENERAL_CHAT"))
    ∧ (getUserIntent ("Hello") (some ("GENERAL_CHAT"))).2 = true :=
  ⟨by decide, blank_prompt_hello_flow.1 _ _ (by decide),
    blank_prompt_hello_flow.2.1 _ _ (by decide),
    blank_prompt_hello_flow.2.2.2 _⟩

/-! ### Concrete counterexample states -/

/-- C1 (corrected): (i) a pantry row whose quantity is already negative (such
states are reachable: receipt intake adds quantities unchecked) survives a
recipe that does not mention it, so the operation can leave a
negative-quantity row; (ii) two case-variant pantry rows ("Eggs"/"EGGS" -
the DB unique constraint is case-sensitive) start disjoint from the to-buy
list, yet after the recipe the snapshot dict deletes only the later row and
the name ends up present (case-insensitively) in both collections. -/
theorem useRecipe_invariant_cex :
    ((∀ i ∈ ([⟨1, "milk", -1, "l", "dairy", 1⟩] : List Ingredient),
        ∀ t ∈ ([] : List ToBuy), pyLower i.name ≠ pyLower t.name)
      ∧ ∃ i ∈ (useRecipe ⟨"Toast", []⟩
            ⟨[⟨1, "milk", -1, "l", "dairy", 1⟩], [], 2⟩).pantry, i.quantity < 0)
    ∧ ((∀ i ∈ ([⟨1, "Eggs", 5, "item", "dairy", 1⟩,
                ⟨2, "EGGS", 1, "item", "dairy", 1⟩] : List Ingredient),
        ∀ t ∈ ([] : List ToBuy), pyLower i.name ≠ pyLower t.name)
      ∧ ∃ i ∈ (useRecipe ⟨"Cake", [⟨"eggs", 2, "item"⟩]⟩
            ⟨[⟨1, "Eggs", 5, "item", "dairy", 1⟩,
              ⟨2, "EGGS", 1, "item", "dairy", 1⟩], [], 3⟩).pantry,
        ∃ t ∈ (useRecipe ⟨"Cake", [⟨"eggs", 2, "item"⟩]⟩
            ⟨[⟨1, "Eggs", 5, "item", "dairy", 1⟩,
              ⟨2, "EGGS", 1, "item", "dairy", 1⟩], [], 3⟩).toBuy,
          pyLower i.name = pyLower t.name) := by
  have h1 : (useRecipe ⟨"Toast", []⟩
      ⟨[⟨1, "milk", -1, "l", "dairy", 1⟩], [], 2⟩).pantry
      = [⟨1, "milk", -1, "l", "dairy", 1⟩] := by
    norm_num [useRecipe, useRecipeParts, processItems, applyUpdates, applyToBuys]
  have h2 : useRecipe ⟨"Cake", [⟨"eggs", 2, "item"⟩]⟩
      ⟨[⟨1, "Eggs", 5, "item", "dairy", 1⟩,
        ⟨2, "EGGS", 1, "item", "dairy", 1⟩], [], 3⟩
      = ⟨[⟨1, "Eggs", 5, "item", "dairy", 1⟩],
         [⟨"eggs", 1, "item", "dairy", "Cake"⟩], 3⟩ := by
    have e1 : pyLower ("Eggs") = "eggs" := by decide
    have e2 : pyLower ("EGGS") = "eggs" := by decide
    have e3 : pyLower ("eggs") = "eggs" := by decide
    norm_num [useRecipe, useRecipeParts, processItems, snapLookup, findKey,
      deleteId, applyUpdates, applyToBuys, mergeToBuy, e1, e2, e3]
  rw [h1, h2]
  refine ⟨⟨by decide, ?_⟩, by decide, ?_⟩
  · exact ⟨_, List.mem_singleton_self _, by norm_num⟩
  · exact ⟨⟨1, "Eggs", 5, "item", "dairy", 1⟩, List.mem_singleton_self _,
      ⟨"eggs", 1, "item", "dairy", "Cake"⟩, List.mem_singleton_self _, by decide⟩

/-- C2 (corrected): the receipt upsert compares names with the raw DB
equality, so incoming "Milk" does not merge into stored "milk" even though
the two names are equal after case folding; a second row is created. -/
theorem exact_match_no_casefold_cex :
    (receiptUpsertItem ⟨"Milk", 1, "l", "dairy"⟩
        ⟨[⟨1, "milk", 2, "l", "dairy", 1⟩], [], 2⟩).pantry
      = [⟨1, "milk", 2, "l", "dairy", 1⟩, ⟨2, "Milk", 1, "l", "dairy", 1/5⟩]
    ∧ pyLower ("Milk") = pyLower ("milk") := by
  refine ⟨?_, by decide⟩
  simp [receiptUpsertItem, findName]
  norm_num [pyRound2, bankers]

/-- C3 (corrected): (a) the receipt path has no depletion rule: 0.2 + 0.2 =
0.4 < 0.5 is simply persisted; (b) the manual path rounds: adding 0.4 to an
existing quantity 1 persists round(1 + round(0.4)) = 1, not 1.4; (c) when
the depletion upsert finds an existing to-buy row, it keeps that row's
provenance ("Pasta") instead of writing "Low quantity alert". -/
theorem pantry_mutation_rule_cex :
    ((receiptUpsertItem ⟨"milk", 1/5, "l", "dairy"⟩
        ⟨[⟨1, "milk", 1/5, "l", "dairy", 1⟩], [], 2⟩)
      = ⟨[⟨1, "milk", 2/5, "l", "dairy", 1⟩], [], 2⟩ ∧ (2/5 : ℚ) < 1/2)
    ∧ (addToPantry ⟨"rice", 2/5, "kg", "grain"⟩ ⟨[⟨1, "rice", 1, "kg", "grain", 1⟩], [], 2⟩
      = Except.ok ⟨[⟨1, "rice", 1, "kg", "grain", 1⟩], [], 2⟩ ∧ (1 : ℚ) ≠ 1 + 2/5)
    ∧ (addToPantry ⟨"milk", -5, "l", "dairy"⟩
        ⟨[⟨1, "milk", 5, "l", "dairy", 1⟩], [⟨"milk", 2, "l", "dairy", "Pasta"⟩], 2⟩
      = Except.ok ⟨[], [⟨"milk", 2, "l", "dairy", "Pasta"⟩], 2⟩
      ∧ ("Pasta" : String) ≠ "Low quantity alert") := by
  refine ⟨⟨?_, by norm_num⟩, ⟨?_, by norm_num⟩, ?_, by decide⟩
  · norm_num [receiptUpsertItem, findName, updateIngFirst]
  · norm_num [addToPantry, findName, updateIngFirst, bankers]
  · norm_num [addToPantry, findName, findToBuy, updateToBuyFirst, deleteId,
      bankers, max_def]

/-- C4 (code bug): manually adding a new ingredient reaches
ingredient.min_quantity (main.py line 377), an attribute
schemas.IngredientCreate does not have, so the request fails and no
ingredient is created; the receipt path's default min_quantity = 20% of the
initial quantity rounded to 2 decimals does work as claimed. -/
theorem addToPantry_new_ingredient_crash :
    addToPantry ⟨"rice", 3, "kg", "grain"⟩ ⟨[], [], 1⟩ = Except.error ()
    ∧ (receiptUpsertItem ⟨"rice", 3, "kg", "grain"⟩ ⟨[], [], 1⟩).pantry
        = [⟨1, "rice", 3, "kg", "grain", 3/5⟩]
    ∧ pyRound2 (3 * (2/10)) = 3/5 := by
  refine ⟨?_, ?_, ?_⟩
  · norm_num [addToPantry, findName, bankers]
  · norm_num [receiptUpsertItem, findName, pyRound2, bankers]
  · norm_num [pyRound2, bankers]

/-- C5 (corrected): the to-buy row created on depletion takes its unit from
the recipe ingredient ("dozen"), not from the pantry row ("item"); category
and last_used do come from the pantry row and the recipe name. -/
theorem depletion_unit_cex :
    (useRecipe ⟨"Omelette", [⟨"eggs", 1, "dozen"⟩]⟩
        ⟨[⟨1, "eggs", 1, "item", "dairy", 1⟩], [], 2⟩).toBuy
      = [⟨"eggs", 0, "dozen", "dairy", "Omelette"⟩]
    ∧ ("dozen" : String) ≠ "item" := by
  refine ⟨?_, by decide⟩
  norm_num [useRecipe, useRecipeParts, processItems, snapLookup, findKey,
    deleteId, applyUpdates, applyToBuys, mergeToBuy]

/-- C10 (corrected): with pantry eggs = 5 and a recipe listing eggs 6 then
eggs 1, the first occurrence deletes the row inline; the second occurrence's
scheduled update (snapshot remaining 5 - 1 = 4 > 0) matches no row, so the
final pantry is empty rather than holding quantity 4. -/
theorem snapshot_delete_wins_cex :
    (useRecipe ⟨"Big Bake", [⟨"eggs", 6, "item"⟩, ⟨"eggs", 1, "item"⟩]⟩
        ⟨[⟨1, "eggs", 5, "item", "dairy", 1⟩], [], 2⟩).pantry = []
    ∧ (0 : ℚ) < 5 - 1 := by
  refine ⟨?_, by norm_num⟩
  norm_num [useRecipe, useRecipeParts, processItems, snapLookup, findKey,
    deleteId, applyUpdates, applyToBuys, mergeToBuy]

/-! ### List lemmas about the lookup and mutation primitives -/

theorem mem_pairwise_inj {α β : Type} (f : α → β) {l : List α}
    (h : l.Pairwise fun x y => f x ≠ f y) {a b : α}
    (ha : a ∈ l) (hb : b ∈ l) (hf : f a = f b) : a = b := by
  induction l with
  | nil => cases ha
  | cons x t ih =>
    rw [List.pairwise_cons] at h
    rcases List.mem_cons.mp ha with rfl | ha2
    · rcases List.mem_cons.mp hb with rfl | hb2
      · rfl
      · exact absurd hf (h.1 b hb2)
    · rcases List.mem_cons.mp hb with rfl | hb2
      · exact absurd hf.symm (h.1 a ha2)
      · exact ih h.2 ha2 hb2

theorem findName_eq_some {l : List Ingredient} {n : String} {a : Ingredient}
    (h : findName l n = some a) : a ∈ l ∧ a.name = n := by
  induction l with
  | nil => simp [findName] at h
  | cons i t ih =>
    simp only [findName] at h
    by_cases hn : i.name = n
    · rw [if_pos hn] at h
      obtain rfl := Option.some.inj h
      exact ⟨List.mem_cons_self i t, hn⟩
    · rw [if_neg hn] at h
      exact ⟨List.mem_cons_of_mem _ (ih h).1, (ih h).2⟩

theorem findToBuy_eq_some {l : List ToBuy} {n : String} {a : ToBuy}
    (h : findToBuy l n = some a) : a ∈ l ∧ a.name = n := by
  induction l with
  | nil => simp [findToBuy] at h
  | cons i t ih =>
    simp only [findToBuy] at h
    by_cases hn : i.name = n
    · rw [if_pos hn] at h
      obtain rfl := Option.some.inj h
      exact ⟨List.mem_cons_self i t, hn⟩
    · rw [if_neg hn] at h
      exact ⟨List.mem_cons_of_mem _ (ih h).1, (ih h).2⟩

theorem findId_eq_some {l : List Ingredient} {x : ℕ} {a : Ingredient}
    (h : findId l x = some a) : a ∈ l ∧ a.id = x := by
  induction l with
  | nil => simp [findId] at h
  | cons i t ih =>
    simp only [findId] at h
    by_cases hx : i.id = x
    · rw [if_pos hx] at h
      obtain rfl := Option.some.inj h
      exact ⟨List.mem_cons_self i t, hx⟩
    · rw [if_neg hx] at h
      exact ⟨List.mem_cons_of_mem _ (ih h).1, (ih h).2⟩

theorem findKey_eq_some {l : List Ingredient} {k : String} {a : Ingredient}
    (h : findKey l k = some a) : a ∈ l ∧ pyLower a.name = k := by
  induction l with
  | nil => simp [findKey] at h
  | cons i t ih =>
    simp only [findKey] at h
    by_cases hk : pyLower i.name = k
    · rw [if_pos hk] at h
      obtain rfl := Option.some.inj h
      exact ⟨List.mem_cons_self i t, hk⟩
    · rw [if_neg hk] at h
      exact ⟨List.mem_cons_of_mem _ (ih h).1, (ih h).2⟩

theorem snapLookup_eq_some {l : List Ingredient} {k : String} {a : Ingredient}
    (h : snapLookup l k = some a) : a ∈ l ∧ pyLower a.name = k := by
  have h2 := findKey_eq_some h
  exact ⟨List.mem_reverse.mp h2.1, h2.2⟩

theorem findId_eq_none {l : List Ingredient} {x : ℕ} :
    findId l x = none ↔ ∀ i ∈ l, i.id ≠ x := by
  induction l with
  | nil => simp [findId]
  | cons i t ih =>
    simp only [findId]
    by_cases hx : i.id = x
    · simp [hx]
    · simp [hx, ih]

theorem mem_deleteId {l : List Ingredient} {x : ℕ} {i : Ingredient}
    (h : i ∈ deleteId l x) : i ∈ l ∧ i.id ≠ x := by
  induction l with
  | nil => simp [deleteId] at h
  | cons j t ih =>
    simp only [deleteId] at h
    by_cases hj : j.id = x
    · rw [if_pos hj] at h
      exact ⟨List.mem_cons_of_mem _ (ih h).1, (ih h).2⟩
    · rw [if_neg hj] at h
      rcases List.mem_cons.mp h with rfl | h2
      · exact ⟨List.mem_cons_self i t, hj⟩
      · exact ⟨List.mem_cons_of_mem _ (ih h2).1, (ih h2).2⟩

theorem findId_deleteId_ne {l : List Ingredient} {x y : ℕ} (hxy : y ≠ x) :
    findId (deleteId l y) x = findId l x := by
  induction l with
  | nil => rfl
  | cons j t ih =>
    simp only [deleteId]
    by_cases hj : j.id = y
    · rw [if_pos hj, ih]
      have hjx : ¬ j.id = x := by
        rw [hj]
        exact hxy
      simp [findId, hjx]
    · rw [if_neg hj]
      simp only [findId]
      by_cases hx : j.id = x
      · simp [hx]
      · simp [hx, ih]

theorem findId_deleteId_self (l : List Ingredient) (y : ℕ) :
    findId (deleteId l y) y = none := by
  rw [findId_eq_none]
  intro i hi
  exact (mem_deleteId hi).2

theorem findId_map_idpres {g : Ingredient → Ingredient} (hg : ∀ i, (g i).id = i.id)
    (l : List Ingredient) (x : ℕ) :
    findId (l.map g) x = (findId l x).map g := by
  induction l with
  | nil => rfl
  | cons j t ih =>
    simp only [List.map_cons, findId, hg j]
    by_cases hj : j.id = x <;> simp [hj, ih]

theorem findId_of_pairwise {l : List Ingredient}
    (hid : l.Pairwise fun a b => a.id ≠ b.id) {a : Ingredient} (ha : a ∈ l) :
    findId l a.id = some a := by
  induction l with
  | nil => cases ha
  | cons x t ih =>
    rw [List.pairwise_cons] at hid
    rcases List.mem_cons.mp ha with rfl | ha2
    · simp [findId]
    · have hx : ¬ x.id = a.id := hid.1 a ha2
      simp [findId, hx, ih hid.2 ha2]

theorem updsFor_append (l1 l2 : List (ℕ × ℚ)) (x : ℕ) :
    updsFor (l1 ++ l2) x = updsFor l1 x ++ updsFor l2 x := by
  induction l1 with
  | nil => rfl
  | cons u t ih =>
    simp only [List.cons_append, updsFor]
    by_cases hu : u.1 = x <;> simp [hu, ih]

theorem lastD_cons (a : ℚ) (l : List ℚ) (d : ℚ) : lastD (a :: l) d = lastD l a := rfl

theorem lastD_map_getLast {l : List UseItem} {a : UseItem} (f : UseItem → ℚ) (d : ℚ)
    (h : l.getLast? = some a) : lastD (l.map f) d = f a := by
  induction l generalizing d with
  | nil => simp at h
  | cons x t ih =>
    cases t with
    | nil =>
      simp only [List.getLast?_singleton] at h
      obtain rfl := Option.some.inj h
      rfl
    | cons y t2 =>
      rw [List.getLast?_cons_cons] at h
      simpa [lastD_cons] using ih (f x) h

/-! ### Step equations and invariants of the consumption loop -/

theorem processItems_nil (snap : List Ingredient) (rn : String) (p : List Ingredient)
    (ups : List (ℕ × ℚ)) (tbs : List ToBuy) :
    processItems snap rn [] p ups tbs = (p, ups, tbs) := rfl

theorem processItems_cons_none {snap : List Ingredient} {rn : String} {item : UseItem}
    {rest : List UseItem} {p : List Ingredient} {ups : List (ℕ × ℚ)} {tbs : List ToBuy}
    (hl : snapLookup snap (pyLower item.name) = none) :
    processItems snap rn (item :: rest) p ups tbs = processItems snap rn rest p ups tbs := by
  simp only [processItems, hl]

theorem processItems_cons_del {snap : List Ingredient} {rn : String} {item : UseItem}
    {rest : List UseItem} {p : List Ingredient} {ups : List (ℕ × ℚ)} {tbs : List ToBuy}
    {avail : Ingredient}
    (hl : snapLookup snap (pyLower item.name) = some avail)
    (hr : avail.quantity - item.quantity ≤ 0) :
    processItems snap rn (item :: rest) p ups tbs =
      processItems snap rn rest (deleteId p avail.id) ups
        (tbs ++ [⟨item.name, |avail.quantity - item.quantity|, item.unit, avail.category, rn⟩]) := by
  simp only [processItems, hl, if_pos hr]

theorem processItems_cons_upd {snap : List Ingredient} {rn : String} {item : UseItem}
    {rest : List UseItem} {p : List Ingredient} {ups : List (ℕ × ℚ)} {tbs : List ToBuy}
    {avail : Ingredient}
    (hl : snapLookup snap (pyLower item.name) = some avail)
    (hr : ¬ avail.quantity - item.quantity ≤ 0) :
    processItems snap rn (item :: rest) p ups tbs =
      processItems snap rn rest p (ups ++ [(avail.id, avail.quantity - item.quantity)]) tbs := by
  simp only [processItems, hl, if_neg hr]

theorem processItems_pantry_sub (snap : List Ingredient) (rn : String) :
    ∀ (items : List UseItem) (p : List Ingredient) (ups : List (ℕ × ℚ)) (tbs : List ToBuy)
      (i : Ingredient), i ∈ (processItems snap rn items p ups tbs).1 → i ∈ p := by
  intro items
  induction items with
  | nil =>
    intro p ups tbs i h
    rw [processItems_nil] at h
    exact h
  | cons item rest ih =>
    intro p ups tbs i h
    cases hl : snapLookup snap (pyLower item.name) with
    | none =>
      rw [processItems_cons_none hl] at h
      exact ih p ups tbs i h
    | some avail =>
      by_cases hr : avail.quantity - item.quantity ≤ 0
      · rw [processItems_cons_del hl hr] at h
        exact (mem_deleteId (ih _ _ _ i h)).1
      · rw [processItems_cons_upd hl hr] at h
        exact ih _ _ _ i h

theorem processItems_tbs_sub (snap : List Ingredient) (rn : String) :
    ∀ (items : List UseItem) (p : List Ingredient) (ups : List (ℕ × ℚ)) (tbs : List ToBuy)
      (b : ToBuy), b ∈ tbs → b ∈ (processItems snap rn items p ups tbs).2.2 := by
  intro items
  induction items with
  | nil =>
    intro p ups tbs b hb
    rw [processItems_nil]
    exact hb
  | cons item rest ih =>
    intro p ups tbs b hb
    cases hl : snapLookup snap (pyLower item.name) with
    | none =>
      rw [processItems_cons_none hl]
      exact ih p ups tbs b hb
    | some avail =>
      by_cases hr : avail.quantity - item.quantity ≤ 0
      · rw [processItems_cons_del hl hr]
        exact ih _ _ _ b (List.mem_append_left _ hb)
      · rw [processItems_cons_upd hl hr]
        exact ih _ _ _ b hb

theorem processItems_depletion (snap : List Ingredient) (rn : String) :
    ∀ (items : List UseItem) (p : List Ingredient) (ups : List (ℕ × ℚ)) (tbs : List ToBuy)
      (it : UseItem) (avail : Ingredient), it ∈ items →
      snapLookup snap (pyLower it.name) = some avail →
      avail.quantity - it.quantity ≤ 0 →
      (⟨it.name, |avail.quantity - it.quantity|, it.unit, avail.category, rn⟩ : ToBuy)
          ∈ (processItems snap rn items p ups tbs).2.2
      ∧ ∀ i ∈ (processItems snap rn items p ups tbs).1, i.id ≠ avail.id := by
  intro items
  induction items with
  | nil =>
    intro p ups tbs it avail hit
    cases hit
  | cons item rest ih =>
    intro p ups tbs it avail hit hl hdep
    rcases List.mem_cons.mp hit with rfl | hit2
    · rw [processItems_cons_del hl hdep]
      constructor
      · exact processItems_tbs_sub _ _ _ _ _ _ _
          (List.mem_append_right _ (List.mem_singleton_self _))
      · intro i hi
        have hip := processItems_pantry_sub _ _ _ _ _ _ i hi
        exact (mem_deleteId hip).2
    · cases hl2 : snapLookup snap (pyLower item.name) with
      | none =>
        rw [processItems_cons_none hl2]
        exact ih _ _ _ it avail hit2 hl hdep
      | some avail2 =>
        by_cases hr : avail2.quantity - item.quantity ≤ 0
        · rw [processItems_cons_del hl2 hr]
          exact ih _ _ _ it avail hit2 hl hdep
        · rw [processItems_cons_upd hl2 hr]
          exact ih _ _ _ it avail hit2 hl hdep

theorem processItems_inv (snap : List Ingredient) (rn : String)
    (hkey : snap.Pairwise fun a b => pyLower a.name ≠ pyLower b.name) :
    ∀ (items : List UseItem) (p : List Ingredient) (ups : List (ℕ × ℚ)) (tbs : List ToBuy),
      (∀ i ∈ p, i ∈ snap) →
      (∀ b ∈ tbs, ∀ i ∈ p, pyLower i.name ≠ pyLower b.name) →
      (∀ u ∈ ups, 0 < u.2) →
      (∀ i ∈ (processItems snap rn items p ups tbs).1, i ∈ snap)
      ∧ (∀ b ∈ (processItems snap rn items p ups tbs).2.2,
          ∀ i ∈ (processItems snap rn items p ups tbs).1, pyLower i.name ≠ pyLower b.name)
      ∧ (∀ u ∈ (processItems snap rn items p ups tbs).2.1, 0 < u.2) := by
  intro items
  induction items with
  | nil =>
    intro p ups tbs h1 h2 h3
    rw [processItems_nil]
    exact ⟨h1, h2, h3⟩
  | cons item rest ih =>
    intro p ups tbs h1 h2 h3
    cases hl : snapLookup snap (pyLower item.name) with
    | none =>
      rw [processItems_cons_none hl]
      exact ih p ups tbs h1 h2 h3
    | some avail =>
      by_cases hr : avail.quantity - item.quantity ≤ 0
      · rw [processItems_cons_del hl hr]
        apply ih
        · intro i hi
          exact h1 i (mem_deleteId hi).1
        · intro b hb i hi
          rcases List.mem_append.mp hb with hb1 | hb2
          · exact h2 b hb1 i (mem_deleteId hi).1
          · rw [List.mem_singleton] at hb2
            subst hb2
            obtain ⟨hiP, hiNe⟩ := mem_deleteId hi
            have hiS : i ∈ snap := h1 i hiP
            obtain ⟨hav, havKey⟩ := snapLookup_eq_some hl
            intro hEq
            have hEq2 : pyLower i.name = pyLower avail.name := by
              rw [havKey]
              exact hEq
            have hia : i = avail :=
              mem_pairwise_inj (fun j => pyLower j.name) hkey hiS hav hEq2
            exact hiNe (congrArg Ingredient.id hia)
        · exact h3
      · rw [processItems_cons_upd hl hr]
        apply ih
        · exact h1
        · exact h2
        · intro u hu
          rcases List.mem_append.mp hu with hu1 | hu2
          · exact h3 u hu1
          · rw [List.mem_singleton] at hu2
            subst hu2
            exact not_le.mp hr

theorem applyUpdates_mem :
    ∀ (ups : List (ℕ × ℚ)) (p : List Ingredient) (i : Ingredient),
      i ∈ applyUpdates ups p →
      ∃ i0 ∈ p, i.id = i0.id ∧ i.name = i0.name
        ∧ (i.quantity = i0.quantity ∨ ∃ u ∈ ups, u.1 = i.id ∧ i.quantity = u.2) := by
  intro ups
  induction ups with
  | nil =>
    intro p i h
    exact ⟨i, h, rfl, rfl, Or.inl rfl⟩
  | cons u rest ih =>
    intro p i h
    have h2 : i ∈ applyUpdates rest
        (p.map fun j => if j.id = u.1 then { j with quantity := u.2 } else j) := h
    obtain ⟨i1, hi1, hid, hname, hq⟩ :=
      ih (p.map fun j => if j.id = u.1 then { j with quantity := u.2 } else j) i h2
    obtain ⟨i0, hi0, hgi⟩ := List.mem_map.mp hi1
    by_cases h0 : i0.id = u.1
    · rw [if_pos h0] at hgi
      refine ⟨i0, hi0, ?_, ?_, ?_⟩
      · rw [hid, ← hgi]
      · rw [hname, ← hgi]
      · rcases hq with hq1 | ⟨u2, hu2, hu2a, hu2b⟩
        · refine Or.inr ⟨u, List.mem_cons_self _ _, ?_, ?_⟩
          · rw [← h0, hid, ← hgi]
          · rw [hq1, ← hgi]
        · exact Or.inr ⟨u2, List.mem_cons_of_mem _ hu2, hu2a, hu2b⟩
    · rw [if_neg h0] at hgi
      subst hgi
      refine ⟨i0, hi0, hid, hname, ?_⟩
      rcases hq with hq1 | ⟨u2, hu2, ha, hb⟩
      · exact Or.inl hq1
      · exact Or.inr ⟨u2, List.mem_cons_of_mem _ hu2, ha, hb⟩

theorem applyUpdates_findId :
    ∀ (ups : List (ℕ × ℚ)) (p : List Ingredient) (x : ℕ),
      findId (applyUpdates ups p) x =
        (findId p x).map fun i => { i with quantity := lastD (updsFor ups x) i.quantity } := by
  intro ups
  induction ups with
  | nil =>
    intro p x
    cases h : findId p x <;> simp [h, lastD, updsFor, applyUpdates]
  | cons u rest ih =>
    intro p x
    rw [show applyUpdates (u :: rest) p
        = applyUpdates rest (p.map fun j => if j.id = u.1 then { j with quantity := u.2 } else j)
      from rfl]
    rw [ih]
    have hg : ∀ j : Ingredient,
        ((fun j => if j.id = u.1 then { j with quantity := u.2 } else j) j).id = j.id := by
      intro j
      by_cases hj : j.id = u.1 <;> simp [hj]
    rw [findId_map_idpres hg p x]
    cases h : findId p x with
    | none => simp
    | some i =>
      have hix : i.id = x := (findId_eq_some h).2
      by_cases hux : u.1 = x
      · have hiu : i.id = u.1 := by
          rw [hix, hux]
        simp only [Option.map_map, Option.map_some', Function.comp]
        rw [if_pos hiu]
        simp [updsFor, hux, lastD_cons]
      · have hiu : ¬ i.id = u.1 := by
          rw [hix]
          intro hh
          exact hux hh.symm
        simp only [Option.map_map, Option.map_some', Function.comp]
        rw [if_neg hiu]
        simp [updsFor, hux]

theorem mergeToBuy_name :
    ∀ (tbs : List ToBuy) (b t : ToBuy), t ∈ mergeToBuy tbs b →
      (∃ t0 ∈ tbs, t.name = t0.name) ∨ t.name = b.name := by
  intro tbs
  induction tbs with
  | nil =>
    intro b t h
    rw [show mergeToBuy [] b = [b] from rfl, List.mem_singleton] at h
    subst h
    exact Or.inr rfl
  | cons t0 rest ih =>
    intro b t h
    by_cases h0 : t0.name = b.name
    · rw [show mergeToBuy (t0 :: rest) b
          = { t0 with quantity := max t0.quantity b.quantity, last_used := b.last_used } :: rest
        from by simp [mergeToBuy, h0]] at h
      rcases List.mem_cons.mp h with rfl | h2
      · exact Or.inl ⟨t0, List.mem_cons_self _ _, rfl⟩
      · exact Or.inl ⟨t, List.mem_cons_of_mem _ h2, rfl⟩
    · rw [show mergeToBuy (t0 :: rest) b = t0 :: mergeToBuy rest b
        from by simp [mergeToBuy, h0]] at h
      rcases List.mem_cons.mp h with rfl | h2
      · exact Or.inl ⟨t, List.mem_cons_self _ _, rfl⟩
      · rcases ih b t h2 with ⟨t1, ht1, he⟩ | he
        · exact Or.inl ⟨t1, List.mem_cons_of_mem _ ht1, he⟩
        · exact Or.inr he

theorem applyToBuys_name :
    ∀ (bs tbs : List ToBuy) (t : ToBuy), t ∈ applyToBuys bs tbs →
      (∃ t0 ∈ tbs, t.name = t0.name) ∨ (∃ b ∈ bs, t.name = b.name) := by
  intro bs
  induction bs with
  | nil =>
    intro tbs t h
    exact Or.inl ⟨t, h, rfl⟩
  | cons b rest ih =>
    intro tbs t h
    rcases ih (mergeToBuy tbs b) t h with ⟨t1, ht1, he⟩ | ⟨b1, hb1, he⟩
    · rcases mergeToBuy_name tbs b t1 ht1 with ⟨t2, ht2, he2⟩ | he2
      · exact Or.inl ⟨t2, ht2, he.trans he2⟩
      · exact Or.inr ⟨b, List.mem_cons_self _ _, he.trans he2⟩
    · exact Or.inr ⟨b1, List.mem_cons_of_mem _ hb1, he⟩

/-! ### C1 and C5 -/

/-- C1 (amended): for every state whose pantry names are pairwise distinct
case-insensitively, whose pantry quantities are all non-negative, and in
which no name occurs case-insensitively in both collections, the recipe
consumption operation leaves no name present (case-insensitively) in both
the pantry and the to-buy list, and leaves no negative-quantity pantry row. -/
theorem useRecipe_disjoint_nonneg (r : UseRecipe) (st : PantryState)
    (hkey : st.pantry.Pairwise fun a b => pyLower a.name ≠ pyLower b.name)
    (hq : ∀ i ∈ st.pantry, 0 ≤ i.quantity)
    (hdisj : ∀ i ∈ st.pantry, ∀ t ∈ st.toBuy, pyLower i.name ≠ pyLower t.name) :
    (∀ i ∈ (useRecipe r st).pantry, ∀ t ∈ (useRecipe r st).toBuy,
        pyLower i.name ≠ pyLower t.name)
    ∧ ∀ i ∈ (useRecipe r st).pantry, 0 ≤ i.quantity := by
  obtain ⟨hs1, hs2, hs3⟩ :=
    processItems_inv st.pantry r.name hkey r.ingredients st.pantry [] []
      (fun i hi => hi)
      (fun b hb => absurd hb (List.not_mem_nil b))
      (fun u hu => absurd hu (List.not_mem_nil u))
  constructor
  · intro i hi t ht
    have hi2 : i ∈ applyUpdates (useRecipeParts r st).2.1 (useRecipeParts r st).1 := hi
    obtain ⟨i0, hi0, _, hname, _⟩ := applyUpdates_mem _ _ i hi2
    have ht2 : t ∈ applyToBuys (useRecipeParts r st).2.2 st.toBuy := ht
    rcases applyToBuys_name _ _ t ht2 with ⟨t0, ht0, hte⟩ | ⟨b, hb, hte⟩
    · have hi0s : i0 ∈ st.pantry := hs1 i0 hi0
      intro hEq
      apply hdisj i0 hi0s t0 ht0
      rw [hname, hte] at hEq
      exact hEq
    · intro hEq
      apply hs2 b hb i0 hi0
      rw [hname, hte] at hEq
      exact hEq
  · intro i hi
    have hi2 : i ∈ applyUpdates (useRecipeParts r st).2.1 (useRecipeParts r st).1 := hi
    obtain ⟨i0, hi0, _, _, hqq⟩ := applyUpdates_mem _ _ i hi2
    rcases hqq with hq1 | ⟨u, hu, _, hub⟩
    · rw [hq1]
      exact hq i0 (hs1 i0 hi0)
    · rw [hub]
      exact le_of_lt (hs3 u hu)

/-- Witness for C1's theorem: the eggs scenario of the spec, with all three
hypotheses discharged at the concrete state. -/
theorem useRecipe_disjoint_nonneg_witness :
    (([⟨1, "eggs", 1, "item", "dairy", 1⟩] : List Ingredient).Pairwise
        fun a b => pyLower a.name ≠ pyLower b.name)
    ∧ (∀ i ∈ ([⟨1, "eggs", 1, "item", "dairy", 1⟩] : List Ingredient), 0 ≤ i.quantity)
    ∧ (∀ i ∈ ([⟨1, "eggs", 1, "item", "dairy", 1⟩] : List Ingredient),
        ∀ t ∈ ([] : List ToBuy), pyLower i.name ≠ pyLower t.name)
    ∧ ((∀ i ∈ (useRecipe ⟨"Omelette", [⟨"eggs", 1, "item"⟩]⟩
            ⟨[⟨1, "eggs", 1, "item", "dairy", 1⟩], [], 2⟩).pantry,
          ∀ t ∈ (useRecipe ⟨"Omelette", [⟨"eggs", 1, "item"⟩]⟩
            ⟨[⟨1, "eggs", 1, "item", "dairy", 1⟩], [], 2⟩).toBuy,
          pyLower i.name ≠ pyLower t.name)
        ∧ ∀ i ∈ (useRecipe ⟨"Omelette", [⟨"eggs", 1, "item"⟩]⟩
            ⟨[⟨1, "eggs", 1, "item", "dairy", 1⟩], [], 2⟩).pantry, 0 ≤ i.quantity) :=
  ⟨by decide, by decide, by decide,
    useRecipe_disjoint_nonneg ⟨"Omelette", [⟨"eggs", 1, "item"⟩]⟩
      ⟨[⟨1, "eggs", 1, "item", "dairy", 1⟩], [], 2⟩ (by decide) (by decide) (by decide)⟩

/-- C5 (amended): for every recipe ingredient whose snapshot lookup finds a
pantry row and whose remaining = pantryQty - recipeQty is <= 0, the recorded
to-buy addition has quantity abs(remaining) (0 on exact consumption), the
recipe ingredient's unit, the pantry row's category, and last_used = the
recipe's name, and no row with the pantry row's id survives in the final
pantry. -/
theorem useRecipe_depletion_promotes (r : UseRecipe) (st : PantryState)
    (it : UseItem) (avail : Ingredient)
    (hmem : it ∈ r.ingredients)
    (hlook : snapLookup st.pantry (pyLower it.name) = some avail)
    (hdep : avail.quantity - it.quantity ≤ 0) :
    (⟨it.name, |avail.quantity - it.quantity|, it.unit, avail.category, r.name⟩ : ToBuy)
        ∈ (useRecipeParts r st).2.2
    ∧ ∀ i ∈ (useRecipe r st).pantry, i.id ≠ avail.id := by
  obtain ⟨h1, h2⟩ := processItems_depletion st.pantry r.name r.ingredients st.pantry [] []
    it avail hmem hlook hdep
  refine ⟨h1, ?_⟩
  intro i hi
  have hi2 : i ∈ applyUpdates (useRecipeParts r st).2.1 (useRecipeParts r st).1 := hi
  obtain ⟨i0, hi0, hid, _, _⟩ := applyUpdates_mem _ _ i hi2
  rw [hid]
  exact h2 i0 hi0

/-- Witness for C5's theorem: the spec's own scenario, pantry eggs = 1 and a
recipe needing exactly 1 egg. -/
theorem useRecipe_depletion_promotes_witness :
    ((⟨"eggs", 1, "item"⟩ : UseItem) ∈
        (⟨"Omelette", [⟨"eggs", 1, "item"⟩]⟩ : UseRecipe).ingredients)
    ∧ snapLookup ([⟨1, "eggs", 1, "item", "dairy", 1⟩] : List Ingredient)
        (pyLower ("eggs")) = some ⟨1, "eggs", 1, "item", "dairy", 1⟩
    ∧ ((1 : ℚ) - 1 ≤ 0)
    ∧ ((⟨"eggs", |(1 : ℚ) - 1|, "item", "dairy", "Omelette"⟩ : ToBuy)
        ∈ (useRecipeParts ⟨"Omelette", [⟨"eggs", 1, "item"⟩]⟩
            ⟨[⟨1, "eggs", 1, "item", "dairy", 1⟩], [], 2⟩).2.2
      ∧ ∀ i ∈ (useRecipe ⟨"Omelette", [⟨"eggs", 1, "item"⟩]⟩
            ⟨[⟨1, "eggs", 1, "item", "dairy", 1⟩], [], 2⟩).pantry, i.id ≠ 1) :=
  ⟨by decide, by decide, by simp,
    useRecipe_depletion_promotes ⟨"Omelette", [⟨"eggs", 1, "item"⟩]⟩
      ⟨[⟨1, "eggs", 1, "item", "dairy", 1⟩], [], 2⟩ ⟨"eggs", 1, "item"⟩
      ⟨1, "eggs", 1, "item", "dairy", 1⟩ (by decide) (by decide) (by simp)⟩

/-! ### C6 -/

theorem reconcile_cons_skip_empty {pantry : List Ingredient} {r : RecipeIng}
    {rest : List RecipeIng} (h : pyLower (r.name.getD "") = "") :
    reconcileIngredients pantry (r :: rest) = reconcileIngredients pantry rest := by
  simp [reconcileIngredients, h]

theorem reconcile_cons_skip_staple {pantry : List Ingredient} {r : RecipeIng}
    {rest : List RecipeIng} (h1 : ¬ pyLower (r.name.getD "") = "")
    (h2 : pyLower (r.name.getD "") ∈ commonIngredients) :
    reconcileIngredients pantry (r :: rest) = reconcileIngredients pantry rest := by
  simp [reconcileIngredients, h1, h2]

theorem reconcile_cons_skip_missing {pantry : List Ingredient} {r : RecipeIng}
    {rest : List RecipeIng} (h1 : ¬ pyLower (r.name.getD "") = "")
    (h2 : ¬ pyLower (r.name.getD "") ∈ commonIngredients)
    (h3 : snapLookup pantry (pyLower (r.name.getD "")) = none) :
    reconcileIngredients pantry (r :: rest) = reconcileIngredients pantry rest := by
  simp [reconcileIngredients, h1, h2, h3]

theorem reconcile_cons_found {pantry : List Ingredient} {r : RecipeIng}
    {rest : List RecipeIng} {avail : Ingredient}
    (h1 : ¬ pyLower (r.name.getD "") = "")
    (h2 : ¬ pyLower (r.name.getD "") ∈ commonIngredients)
    (h3 : snapLookup pantry (pyLower (r.name.getD "")) = some avail) :
    reconcileIngredients pantry (r :: rest)
      = ⟨r.name.getD "", min (r.quantity.getD 0) avail.quantity, r.unit.getD avail.unit⟩
          :: reconcileIngredients pantry rest := by
  simp [reconcileIngredients, h1, h2, h3]

/-- C6 (confirmed): every entry of the reconciled ingredient list comes from
a recipe ingredient whose normalized name is absent from the staples set and
present in the pantry; its quantity is exactly min(requested, available), so
it never exceeds the pantry-available quantity, and its unit is the recipe's
unit when given, else the pantry's. -/
theorem reconcile_sound (pantry : List Ingredient) :
    ∀ (rs : List RecipeIng) (o : OutIng), o ∈ reconcileIngredients pantry rs →
      pyLower o.name ∉ commonIngredients
      ∧ ∃ avail r, r ∈ rs ∧ r.name = some o.name
          ∧ snapLookup pantry (pyLower o.name) = some avail
          ∧ o.quantity = min (r.quantity.getD 0) avail.quantity
          ∧ o.quantity ≤ avail.quantity
          ∧ o.unit = r.unit.getD avail.unit := by
  intro rs
  induction rs with
  | nil =>
    intro o ho
    exact absurd ho (List.not_mem_nil o)
  | cons r rest ih =>
    intro o ho
    by_cases h1 : pyLower (r.name.getD "") = ""
    · rw [reconcile_cons_skip_empty h1] at ho
      obtain ⟨hA, avail, r2, hm, hn, hs, hq, hle, hu⟩ := ih o ho
      exact ⟨hA, avail, r2, List.mem_cons_of_mem _ hm, hn, hs, hq, hle, hu⟩
    · by_cases h2 : pyLower (r.name.getD "") ∈ commonIngredients
      · rw [reconcile_cons_skip_staple h1 h2] at ho
        obtain ⟨hA, avail, r2, hm, hn, hs, hq, hle, hu⟩ := ih o ho
        exact ⟨hA, avail, r2, List.mem_cons_of_mem _ hm, hn, hs, hq, hle, hu⟩
      · cases h3 : snapLookup pantry (pyLower (r.name.getD "")) with
        | none =>
          rw [reconcile_cons_skip_missing h1 h2 h3] at ho
          obtain ⟨hA, avail, r2, hm, hn, hs, hq, hle, hu⟩ := ih o ho
          exact ⟨hA, avail, r2, List.mem_cons_of_mem _ hm, hn, hs, hq, hle, hu⟩
        | some avail =>
          rw [reconcile_cons_found h1 h2 h3] at ho
          rcases List.mem_cons.mp ho with rfl | ho2
          · have hname : r.name = some (r.name.getD "") := by
              cases hn : r.name with
              | none =>
                exfalso
                apply h1
                rw [hn]
                decide
              | some s => rfl
            exact ⟨h2, avail, r, List.mem_cons_self _ _, hname, h3, rfl,
              min_le_right _ _, rfl⟩
          · obtain ⟨hA, avail2, r2, hm, hn, hs, hq, hle, hu⟩ := ih o ho2
            exact ⟨hA, avail2, r2, List.mem_cons_of_mem _ hm, hn, hs, hq, hle, hu⟩

/-- Witness for C6's theorem: a pantry with 2 lb of chicken and a recipe
asking for 5 of "Chicken" with no unit; the reconciled entry is clamped to 2
and takes the pantry unit. -/
theorem reconcile_sound_witness :
    ((⟨"Chicken", 2, "lb"⟩ : OutIng) ∈
      reconcileIngredients ([⟨1, "chicken", 2, "lb", "meat", 1⟩] : List Ingredient)
        [⟨some "Chicken", some 5, none⟩])
    ∧ (pyLower ("Chicken") ∉ commonIngredients
      ∧ ∃ avail r, r ∈ ([⟨some "Chicken", some 5, none⟩] : List RecipeIng)
          ∧ r.name = some "Chicken"
          ∧ snapLookup ([⟨1, "chicken", 2, "lb", "meat", 1⟩] : List Ingredient)
              (pyLower ("Chicken")) = some avail
          ∧ (2 : ℚ) = min (r.quantity.getD 0) avail.quantity
          ∧ (2 : ℚ) ≤ avail.quantity
          ∧ "lb" = r.unit.getD avail.unit) :=
  ⟨by decide,
    reconcile_sound ([⟨1, "chicken", 2, "lb", "meat", 1⟩] : List Ingredient)
      [⟨some "Chicken", some 5, none⟩] ⟨"Chicken", 2, "lb"⟩ (by decide)⟩

/-! ### C10 -/

theorem processItems_track (snap : List Ingredient) (rn : String) (k : String)
    (avail : Ingredient)
    (hid : snap.Pairwise fun a b => a.id ≠ b.id)
    (hlook : snapLookup snap k = some avail) :
    ∀ (items : List UseItem) (p : List Ingredient) (ups : List (ℕ × ℚ)) (tbs : List ToBuy),
      (∀ it ∈ items, pyLower it.name = k → 0 < avail.quantity - it.quantity) →
      findId p avail.id = some avail →
      findId (processItems snap rn items p ups tbs).1 avail.id = some avail
      ∧ updsFor (processItems snap rn items p ups tbs).2.1 avail.id
        = updsFor ups avail.id
          ++ (items.filter fun it => decide (pyLower it.name = k)).map
              (fun it => avail.quantity - it.quantity) := by
  intro items
  induction items with
  | nil =>
    intro p ups tbs hpos hfind
    rw [processItems_nil]
    exact ⟨hfind, by simp⟩
  | cons item rest ih =>
    intro p ups tbs hpos hfind
    by_cases hk : pyLower item.name = k
    · have hl : snapLookup snap (pyLower item.name) = some avail := by
        rw [hk]
        exact hlook
      have hrpos : 0 < avail.quantity - item.quantity :=
        hpos item (List.mem_cons_self _ _) hk
      have hr : ¬ avail.quantity - item.quantity ≤ 0 := not_le.mpr hrpos
      rw [processItems_cons_upd hl hr]
      obtain ⟨c1, c2⟩ := ih p (ups ++ [(avail.id, avail.quantity - item.quantity)]) tbs
        (fun it hit hkk => hpos it (List.mem_cons_of_mem _ hit) hkk) hfind
      refine ⟨c1, ?_⟩
      rw [c2, updsFor_append]
      rw [show updsFor [(avail.id, avail.quantity - item.quantity)] avail.id
          = [avail.quantity - item.quantity] from by simp [updsFor]]
      rw [show (item :: rest).filter (fun it => decide (pyLower it.name = k))
          = item :: rest.filter (fun it => decide (pyLower it.name = k)) from by
        simp [List.filter_cons, hk]]
      simp
    · have hfilter : (item :: rest).filter (fun it => decide (pyLower it.name = k))
          = rest.filter (fun it => decide (pyLower it.name = k)) := by
        simp [List.filter_cons, hk]
      cases hl2 : snapLookup snap (pyLower item.name) with
      | none =>
        rw [processItems_cons_none hl2, hfilter]
        exact ih p ups tbs (fun it hit hkk => hpos it (List.mem_cons_of_mem _ hit) hkk) hfind
      | some avail2 =>
        have hne : avail2.id ≠ avail.id := by
          intro he
          obtain ⟨hm2, hk2⟩ := snapLookup_eq_some hl2
          obtain ⟨hm1, hk1⟩ := snapLookup_eq_some hlook
          have he2 : avail2 = avail := mem_pairwise_inj (fun j => j.id) hid hm2 hm1 he
          apply hk
          rw [← hk2, he2, hk1]
        by_cases hr : avail2.quantity - item.quantity ≤ 0
        · rw [processItems_cons_del hl2 hr, hfilter]
          apply ih _ _ _ (fun it hit hkk => hpos it (List.mem_cons_of_mem _ hit) hkk)
          rw [findId_deleteId_ne hne]
          exact hfind
        · rw [processItems_cons_upd hl2 hr, hfilter]
          obtain ⟨c1, c2⟩ := ih p (ups ++ [(avail2.id, avail2.quantity - item.quantity)]) tbs
            (fun it hit hkk => hpos it (List.mem_cons_of_mem _ hit) hkk) hfind
          refine ⟨c1, ?_⟩
          rw [c2, updsFor_append]
          rw [show updsFor [(avail2.id, avail2.quantity - item.quantity)] avail.id = []
            from by simp [updsFor, hne]]
          simp

theorem processItems_findId_none (snap : List Ingredient) (rn : String)
    (items : List UseItem) (p : List Ingredient) (ups : List (ℕ × ℚ)) (tbs : List ToBuy)
    (x : ℕ) (h : findId p x = none) :
    findId (processItems snap rn items p ups tbs).1 x = none := by
  rw [findId_eq_none] at h ⊢
  intro i hi
  exact h i (processItems_pantry_sub _ _ _ _ _ _ i hi)

theorem processItems_deletes (snap : List Ingredient) (rn : String) (k : String)
    (avail : Ingredient) (hlook : snapLookup snap k = some avail) :
    ∀ (items : List UseItem) (p : List Ingredient) (ups : List (ℕ × ℚ)) (tbs : List ToBuy),
      (∃ it ∈ items, pyLower it.name = k ∧ avail.quantity - it.quantity ≤ 0) →
      findId (processItems snap rn items p ups tbs).1 avail.id = none := by
  intro items
  induction items with
  | nil =>
    intro p ups tbs hex
    obtain ⟨it, hit, _⟩ := hex
    cases hit
  | cons item rest ih =>
    intro p ups tbs hex
    obtain ⟨it, hit, hkk, hdep⟩ := hex
    rcases List.mem_cons.mp hit with rfl | hit2
    · have hl : snapLookup snap (pyLower it.name) = some avail := by
        rw [hkk]
        exact hlook
      rw [processItems_cons_del hl hdep]
      apply processItems_findId_none
      exact findId_deleteId_self p avail.id
    · cases hl2 : snapLookup snap (pyLower item.name) with
      | none =>
        rw [processItems_cons_none hl2]
        exact ih _ _ _ ⟨it, hit2, hkk, hdep⟩
      | some avail2 =>
        by_cases hr : avail2.quantity - item.quantity ≤ 0
        · rw [processItems_cons_del hl2 hr]
          exact ih _ _ _ ⟨it, hit2, hkk, hdep⟩
        · rw [processItems_cons_upd hl2 hr]
          exact ih _ _ _ ⟨it, hit2, hkk, hdep⟩

/-- C10 (amended): the pantry is read once into a snapshot, and each
occurrence of a key computes its remaining from the snapshot quantity.  If
every occurrence's snapshot remaining is positive, the scheduled by-id
updates overwrite each other and the last occurrence wins: the final
quantity is original minus the last occurrence's quantity.  But if any
occurrence's snapshot remaining is <= 0, the row is deleted inline during
the loop and the later scheduled updates match no row, so the row stays
deleted (rather than being persisted with the last occurrence's remainder). -/
theorem useRecipe_snapshot_rule (r : UseRecipe) (st : PantryState) (k : String)
    (avail : Ingredient)
    (hid : st.pantry.Pairwise fun a b => a.id ≠ b.id)
    (hlook : snapLookup st.pantry k = some avail) :
    ((∀ it ∈ r.ingredients, pyLower it.name = k → 0 < avail.quantity - it.quantity) →
      ∀ lastIt : UseItem,
        (r.ingredients.filter fun it => decide (pyLower it.name = k)).getLast?
          = some lastIt →
        findId (useRecipe r st).pantry avail.id =
          some { avail with quantity := avail.quantity - lastIt.quantity })
    ∧ ((∃ it ∈ r.ingredients, pyLower it.name = k ∧ avail.quantity - it.quantity ≤ 0) →
        findId (useRecipe r st).pantry avail.id = none) := by
  constructor
  · intro hpos lastIt hlast
    have hfind0 : findId st.pantry avail.id = some avail := by
      obtain ⟨hm, _⟩ := snapLookup_eq_some hlook
      exact findId_of_pairwise hid hm
    obtain ⟨c1, c2⟩ := processItems_track st.pantry r.name k avail hid hlook
      r.ingredients st.pantry [] [] hpos hfind0
    have c1b : findId (useRecipeParts r st).1 avail.id = some avail := c1
    have c2b : updsFor (useRecipeParts r st).2.1 avail.id
        = updsFor [] avail.id
          ++ (r.ingredients.filter fun it => decide (pyLower it.name = k)).map
              (fun it => avail.quantity - it.quantity) := c2
    have hu : findId (useRecipe r st).pantry avail.id
        = (findId (useRecipeParts r st).1 avail.id).map
            (fun i => { i with
              quantity := lastD (updsFor (useRecipeParts r st).2.1 avail.id) i.quantity }) :=
      applyUpdates_findId _ _ _
    rw [hu, c1b, c2b]
    simp only [Option.map_some']
    rw [show updsFor [] avail.id = [] from rfl, List.nil_append]
    rw [lastD_map_getLast (fun it => avail.quantity - it.quantity) avail.quantity hlast]
  · intro hex
    have h1 := processItems_deletes st.pantry r.name k avail hlook
      r.ingredients st.pantry [] [] hex
    have h1b : findId (useRecipeParts r st).1 avail.id = none := h1
    have hu := applyUpdates_findId (useRecipeParts r st).2.1 (useRecipeParts r st).1 avail.id
    rw [show (useRecipe r st).pantry
        = applyUpdates (useRecipeParts r st).2.1 (useRecipeParts r st).1 from rfl]
    rw [hu, h1b]
    rfl

/-- Witness for C10's theorem: pantry eggs = 5, recipe listing eggs twice. -/
theorem useRecipe_snapshot_rule_witness :
    (([⟨1, "eggs", 5, "item", "dairy", 1⟩] : List Ingredient).Pairwise
        fun a b => a.id ≠ b.id)
    ∧ snapLookup ([⟨1, "eggs", 5, "item", "dairy", 1⟩] : List Ingredient) ("eggs")
        = some ⟨1, "eggs", 5, "item", "dairy", 1⟩
    ∧ (((∀ it ∈ (⟨"Cake", [⟨"eggs", 2, "item"⟩, ⟨"eggs", 1, "item"⟩]⟩ : UseRecipe).ingredients,
          pyLower it.name = "eggs" →
          0 < (⟨1, "eggs", 5, "item", "dairy", 1⟩ : Ingredient).quantity - it.quantity) →
        ∀ lastIt : UseItem,
          ((⟨"Cake", [⟨"eggs", 2, "item"⟩, ⟨"eggs", 1, "item"⟩]⟩ : UseRecipe).ingredients.filter
              fun it => decide (pyLower it.name = "eggs")).getLast? = some lastIt →
          findId (useRecipe ⟨"Cake", [⟨"eggs", 2, "item"⟩, ⟨"eggs", 1, "item"⟩]⟩
              ⟨[⟨1, "eggs", 5, "item", "dairy", 1⟩], [], 2⟩).pantry 1 =
            some { (⟨1, "eggs", 5, "item", "dairy", 1⟩ : Ingredient) with
              quantity := (⟨1, "eggs", 5, "item", "dairy", 1⟩ : Ingredient).quantity
                - lastIt.quantity })
      ∧ ((∃ it ∈ (⟨"Cake", [⟨"eggs", 2, "item"⟩, ⟨"eggs", 1, "item"⟩]⟩ : UseRecipe).ingredients,
            pyLower it.name = "eggs"
            ∧ (⟨1, "eggs", 5, "item", "dairy", 1⟩ : Ingredient).quantity - it.quantity ≤ 0) →
          findId (useRecipe ⟨"Cake", [⟨"eggs", 2, "item"⟩, ⟨"eggs", 1, "item"⟩]⟩
              ⟨[⟨1, "eggs", 5, "item", "dairy", 1⟩], [], 2⟩).pantry 1 = none)) :=
  ⟨by decide, by decide,
    useRecipe_snapshot_rule ⟨"Cake", [⟨"eggs", 2, "item"⟩, ⟨"eggs", 1, "item"⟩]⟩
      ⟨[⟨1, "eggs", 5, "item", "dairy", 1⟩], [], 2⟩ ("eggs")
      ⟨1, "eggs", 5, "item", "dairy", 1⟩ (by decide) (by decide)⟩

/-! ### C2 and C3 -/

theorem updateIngFirst_length (l : List Ingredient) (n : String) (f : Ingredient → Ingredient) :
    (updateIngFirst l n f).length = l.length := by
  induction l with
  | nil => rfl
  | cons i t ih =>
    simp only [updateIngFirst]
    by_cases hn : i.name = n <;> simp [hn, ih]

theorem findName_update {l : List Ingredient} {n : String} {f : Ingredient → Ingredient}
    (hf : ∀ i, (f i).name = i.name) :
    findName (updateIngFirst l n f) n = (findName l n).map f := by
  induction l with
  | nil => rfl
  | cons i t ih =>
    simp only [updateIngFirst]
    by_cases hn : i.name = n
    · rw [if_pos hn]
      simp [findName, hf i, hn]
    · rw [if_neg hn]
      simp [findName, hn, ih]

theorem findToBuy_update {l : List ToBuy} {n : String} {f : ToBuy → ToBuy}
    (hf : ∀ t, (f t).name = t.name) :
    findToBuy (updateToBuyFirst l n f) n = (findToBuy l n).map f := by
  induction l with
  | nil => rfl
  | cons t rest ih =>
    simp only [updateToBuyFirst]
    by_cases hn : t.name = n
    · rw [if_pos hn]
      simp [findToBuy, hf t, hn]
    · rw [if_neg hn]
      simp [findToBuy, hn, ih]

theorem findToBuy_append_some {l : List ToBuy} {n : String} {t : ToBuy}
    (h : findToBuy l n = none) (ht : t.name = n) :
    findToBuy (l ++ [t]) n = some t := by
  induction l with
  | nil => simp [findToBuy, ht]
  | cons t0 rest ih =>
    simp only [findToBuy, List.cons_append] at h ⊢
    by_cases h0 : t0.name = n
    · rw [if_pos h0] at h
      cases h
    · rw [if_neg h0] at h ⊢
      exact ih h

theorem findName_deleteId_none {l : List Ingredient} {n : String} {x : ℕ}
    (hall : ∀ i ∈ l, i.name = n → i.id = x) :
    findName (deleteId l x) n = none := by
  induction l with
  | nil => rfl
  | cons i t ih =>
    simp only [deleteId]
    by_cases hx : i.id = x
    · rw [if_pos hx]
      exact ih fun j hj hn => hall j (List.mem_cons_of_mem _ hj) hn
    · rw [if_neg hx]
      have hn : ¬ i.name = n := fun hn => hx (hall i (List.mem_cons_self _ _) hn)
      simp only [findName, if_neg hn]
      exact ih fun j hj hn2 => hall j (List.mem_cons_of_mem _ hj) hn2

theorem receiptUpsertItem_merge {it : ReceiptItemR} {st : PantryState} {ex : Ingredient}
    (hfound : findName st.pantry it.name = some ex) :
    receiptUpsertItem it st
      = { st with pantry := updateIngFirst st.pantry it.name (fun i => { i with quantity := i.quantity + it.quantity }) } := by
  simp only [receiptUpsertItem, hfound]

theorem receiptUpsertItem_new {it : ReceiptItemR} {st : PantryState}
    (hmiss : findName st.pantry it.name = none) :
    receiptUpsertItem it st
      = { st with
          pantry := st.pantry ++ [⟨st.nextId, it.name, it.quantity, it.unit, it.category, pyRound2 (it.quantity * (2/10))⟩]
          nextId := st.nextId + 1 } := by
  simp only [receiptUpsertItem, hmiss]

theorem addToPantry_existing_low {inc : IngredientCreate} {st : PantryState} {ex : Ingredient}
    (hfound : findName st.pantry inc.name = some ex)
    (hq : ((bankers (ex.quantity + (bankers inc.quantity : ℚ)) : ℚ)) < 1/2) :
    addToPantry inc st
      = Except.ok { st with
          pantry := deleteId st.pantry ex.id
          toBuy := match findToBuy st.toBuy inc.name with | some _ => updateToBuyFirst st.toBuy inc.name (fun t => { t with quantity := max t.quantity 1 }) | none => st.toBuy ++ [⟨inc.name, 1, inc.unit, inc.category, "Low quantity alert"⟩] } := by
  simp only [addToPantry, hfound]
  rw [if_pos hq]

theorem addToPantry_existing_ok {inc : IngredientCreate} {st : PantryState} {ex : Ingredient}
    (hfound : findName st.pantry inc.name = some ex)
    (hq : ¬ ((bankers (ex.quantity + (bankers inc.quantity : ℚ)) : ℚ)) < 1/2) :
    addToPantry inc st
      = Except.ok { st with pantry := updateIngFirst st.pantry inc.name (fun i => { i with quantity := (bankers (ex.quantity + (bankers inc.quantity : ℚ)) : ℚ) }) } := by
  simp only [addToPantry, hfound]
  rw [if_neg hq]

theorem addToPantry_new_low {inc : IngredientCreate} {st : PantryState}
    (hmiss : findName st.pantry inc.name = none)
    (hq : ((bankers inc.quantity : ℚ)) < 1/2) :
    addToPantry inc st
      = Except.ok { st with toBuy := st.toBuy ++ [⟨inc.name, 1, inc.unit, inc.category, "Low quantity alert"⟩] } := by
  simp only [addToPantry, hmiss]
  rw [if_pos hq]

theorem addToPantry_new_err {inc : IngredientCreate} {st : PantryState}
    (hmiss : findName st.pantry inc.name = none)
    (hq : ¬ ((bankers inc.quantity : ℚ)) < 1/2) :
    addToPantry inc st = Except.error () := by
  simp only [addToPantry, hmiss]
  rw [if_neg hq]

/-- C2 (amended): the receipt-intake upsert, the to-buy merge in recipe
consumption, and the manual pantry add all match stored records by EXACT
(case-sensitive) name equality: the incoming item merges into a stored
record (no new row) if and only if a row with exactly that name exists, and
on an exact-name miss the manual add never mutates the pantry even when a
case variant of the name is stored. -/
theorem matching_by_exact_name :
    (∀ (it : ReceiptItemR) (st : PantryState),
      (receiptUpsertItem it st).pantry.length =
        st.pantry.length + (if findName st.pantry it.name = none then 1 else 0))
    ∧ (∀ (tbs : List ToBuy) (b : ToBuy),
      (mergeToBuy tbs b).length =
        tbs.length + (if findToBuy tbs b.name = none then 1 else 0))
    ∧ (∀ (inc : IngredientCreate) (st : PantryState),
      findName st.pantry inc.name = none →
      addToPantry inc st = Except.error ()
      ∨ ∃ st2, addToPantry inc st = Except.ok st2 ∧ st2.pantry = st.pantry) := by
  refine ⟨?_, ?_, ?_⟩
  · intro it st
    cases h : findName st.pantry it.name with
    | some ex =>
      rw [receiptUpsertItem_merge h]
      simp [updateIngFirst_length]
    | none =>
      rw [receiptUpsertItem_new h]
      simp
  · intro tbs b
    induction tbs with
    | nil => simp [mergeToBuy, findToBuy]
    | cons t rest ih =>
      by_cases h : t.name = b.name
      · simp [mergeToBuy, findToBuy, h]
      · simp only [mergeToBuy, findToBuy, if_neg h, List.length_cons, ih]
        split_ifs <;> omega
  · intro inc st h
    by_cases hq : ((bankers inc.quantity : ℚ)) < 1/2
    · exact Or.inr ⟨_, addToPantry_new_low h hq, rfl⟩
    · exact Or.inl (addToPantry_new_err h hq)

/-- Witness for C2's theorem: stored "milk", incoming "Milk" - an exact-name
miss even though the names agree after case folding, so the manual add does
not touch the stored row. -/
theorem matching_by_exact_name_witness :
    findName ([⟨1, "milk", 2, "l", "dairy", 1⟩] : List Ingredient) ("Milk") = none
    ∧ (addToPantry ⟨"Milk", 1, "l", "dairy"⟩ ⟨[⟨1, "milk", 2, "l", "dairy", 1⟩], [], 2⟩
        = Except.error ()
      ∨ ∃ st2, addToPantry ⟨"Milk", 1, "l", "dairy"⟩
          ⟨[⟨1, "milk", 2, "l", "dairy", 1⟩], [], 2⟩ = Except.ok st2
        ∧ st2.pantry = [⟨1, "milk", 2, "l", "dairy", 1⟩]) :=
  ⟨by decide, matching_by_exact_name.2.2 ⟨"Milk", 1, "l", "dairy"⟩
    ⟨[⟨1, "milk", 2, "l", "dairy", 1⟩], [], 2⟩ (by decide)⟩

/-- C3 (amended): receipt intake adds the incoming quantity to an existing
row unconditionally and never touches the to-buy list (no depletion rule on
that path).  On manual add with an existing row, new_quantity =
round(existing + round(incoming)) under banker's rounding; if new_quantity
< 0.5 the row is removed and a to-buy entry is upserted - an existing entry
gets quantity max(existing, 1) with its provenance left unchanged, a new
entry gets quantity 1 and provenance "Low quantity alert" - and otherwise
new_quantity is persisted and the to-buy list is untouched. -/
theorem pantry_add_rules (st : PantryState)
    (hpair : st.pantry.Pairwise fun a b => a.name ≠ b.name) :
    (∀ it : ReceiptItemR, (receiptUpsertItem it st).toBuy = st.toBuy)
    ∧ (∀ (it : ReceiptItemR) (ex : Ingredient), findName st.pantry it.name = some ex →
        findName (receiptUpsertItem it st).pantry it.name
          = some { ex with quantity := ex.quantity + it.quantity })
    ∧ (∀ (inc : IngredientCreate) (ex : Ingredient), findName st.pantry inc.name = some ex →
        (((bankers (ex.quantity + (bankers inc.quantity : ℚ)) : ℚ) < 1/2 →
          ∃ st2, addToPantry inc st = Except.ok st2
            ∧ findName st2.pantry inc.name = none
            ∧ (∀ t0, findToBuy st.toBuy inc.name = some t0 →
                findToBuy st2.toBuy inc.name = some { t0 with quantity := max t0.quantity 1 })
            ∧ (findToBuy st.toBuy inc.name = none →
                findToBuy st2.toBuy inc.name
                  = some ⟨inc.name, 1, inc.unit, inc.category, "Low quantity alert"⟩))
        ∧ ((1/2 : ℚ) ≤ (bankers (ex.quantity + (bankers inc.quantity : ℚ)) : ℚ) →
          ∃ st2, addToPantry inc st = Except.ok st2
            ∧ st2.toBuy = st.toBuy
            ∧ findName st2.pantry inc.name
              = some { ex with quantity := (bankers (ex.quantity + (bankers inc.quantity : ℚ)) : ℚ) }))) := by
  refine ⟨?_, ?_, ?_⟩
  · intro it
    cases h : findName st.pantry it.name with
    | some ex => rw [receiptUpsertItem_merge h]
    | none => rw [receiptUpsertItem_new h]
  · intro it ex hfound
    rw [receiptUpsertItem_merge hfound]
    have hupd : findName (updateIngFirst st.pantry it.name (fun i => { i with quantity := i.quantity + it.quantity })) it.name = (findName st.pantry it.name).map (fun i => { i with quantity := i.quantity + it.quantity }) :=
      findName_update fun i => rfl
    show findName (updateIngFirst st.pantry it.name (fun i => { i with quantity := i.quantity + it.quantity })) it.name = some { ex with quantity := ex.quantity + it.quantity }
    rw [hupd, hfound]
    rfl
  · intro inc ex hfound
    have hdel : findName (deleteId st.pantry ex.id) inc.name = none := by
      apply findName_deleteId_none
      intro i hi hn
      have hexm := findName_eq_some hfound
      have hie : i = ex :=
        mem_pairwise_inj (fun j => j.name) hpair hi hexm.1 (hn.trans hexm.2.symm)
      rw [hie]
    constructor
    · intro hq
      have hstep := addToPantry_existing_low hfound hq
      cases htb : findToBuy st.toBuy inc.name with
      | some t0 =>
        rw [htb] at hstep
        refine ⟨_, hstep, hdel, ?_, ?_⟩
        · intro t0b htb2
          obtain rfl := Option.some.inj htb2
          have hupd : findToBuy (updateToBuyFirst st.toBuy inc.name (fun t => { t with quantity := max t.quantity 1 })) inc.name = (findToBuy st.toBuy inc.name).map (fun t => { t with quantity := max t.quantity 1 }) :=
            findToBuy_update fun t => rfl
          show findToBuy (updateToBuyFirst st.toBuy inc.name (fun t => { t with quantity := max t.quantity 1 })) inc.name = some { t0 with quantity := max t0.quantity 1 }
          rw [hupd, htb]
          rfl
        · intro hnone
          exact Option.noConfusion hnone
      | none =>
        rw [htb] at hstep
        refine ⟨_, hstep, hdel, ?_, ?_⟩
        · intro t0 htb2
          exact Option.noConfusion htb2
        · intro _
          exact findToBuy_append_some htb rfl
    · intro hq
      refine ⟨_, addToPantry_existing_ok hfound (not_lt.mpr hq), rfl, ?_⟩
      have hupd : findName (updateIngFirst st.pantry inc.name (fun i => { i with quantity := (bankers (ex.quantity + (bankers inc.quantity : ℚ)) : ℚ) })) inc.name = (findName st.pantry inc.name).map (fun i => { i with quantity := (bankers (ex.quantity + (bankers inc.quantity : ℚ)) : ℚ) }) :=
        findName_update fun i => rfl
      show findName (updateIngFirst st.pantry inc.name (fun i => { i with quantity := (bankers (ex.quantity + (bankers inc.quantity : ℚ)) : ℚ) })) inc.name = some { ex with quantity := (bankers (ex.quantity + (bankers inc.quantity : ℚ)) : ℚ) }
      rw [hupd, hfound]
      rfl

/-- Witness for C3's theorem: milk 5 in the pantry, manual add of -5, with a
pre-existing to-buy row whose provenance is "Pasta". -/
theorem pantry_add_rules_witness :
    (([⟨1, "milk", 5, "l", "dairy", 1⟩] : List Ingredient).Pairwise
        fun a b => a.name ≠ b.name)
    ∧ findName ([⟨1, "milk", 5, "l", "dairy", 1⟩] : List Ingredient) ("milk")
        = some ⟨1, "milk", 5, "l", "dairy", 1⟩
    ∧ ((bankers ((5 : ℚ) + (bankers (-5 : ℚ) : ℚ)) : ℚ) < 1/2)
    ∧ (∃ st2, addToPantry ⟨"milk", -5, "l", "dairy"⟩
          ⟨[⟨1, "milk", 5, "l", "dairy", 1⟩], [⟨"milk", 2, "l", "dairy", "Pasta"⟩], 2⟩
          = Except.ok st2
        ∧ findName st2.pantry ("milk") = none
        ∧ (∀ t0, findToBuy ([⟨"milk", 2, "l", "dairy", "Pasta"⟩] : List ToBuy) ("milk")
              = some t0 →
            findToBuy st2.toBuy ("milk") = some { t0 with quantity := max t0.quantity 1 })
        ∧ (findToBuy ([⟨"milk", 2, "l", "dairy", "Pasta"⟩] : List ToBuy) ("milk") = none →
            findToBuy st2.toBuy ("milk")
              = some ⟨"milk", 1, "l", "dairy", "Low quantity alert"⟩)) :=
  ⟨by decide, by decide, by norm_num [bankers],
    ((pantry_add_rules
        ⟨[⟨1, "milk", 5, "l", "dairy", 1⟩], [⟨"milk", 2, "l", "dairy", "Pasta"⟩], 2⟩
        (by decide)).2.2 ⟨"milk", -5, "l", "dairy"⟩ ⟨1, "milk", 5, "l", "dairy", 1⟩
      (by decide)).1 (by norm_num [bankers])⟩
